import Mathlib

/-!
Verification development for the calculator-bot expression pipeline
(`src/calculator.py`): the shallow embedding of

  * `MATH_PATTERN` (line 65) and `re.findall`, modelling the backtracking
    behaviour of Python's regex engine on this particular pattern,
  * `simple_eval` from the `simpleeval` library, restricted to the token
    language that can actually reach it here (numeric literals, the four
    arithmetic operators, whitespace); Python floats are modelled as exact
    rationals, which is faithful for every input appearing in the claims
    (all the arithmetic involved is exact in binary floating point or far
    from any rounding boundary),
  * `is_valid_math_expression` (lines 107-131),
  * the per-expression evaluation/formatting/reply logic of
    `calculate_expression` (lines 408-479).

Strings are processed as `List Char`.  Python's `\w`, `\s` and `str.strip`
are modelled on the character repertoire that occurs in the claims (ASCII
plus `×`/`÷`, which are correctly non-word characters); Unicode word or
space characters beyond that repertoire are not modelled.
-/

/-! ### Character classes (Python `\d`, `\s`, `\w`, operator sets) -/

def isOpChar (c : Char) : Bool :=
  c == '+' || c == '-' || c == '*' || c == '/' || c == '×' || c == '÷'

def isMulDivChar (c : Char) : Bool :=
  c == '*' || c == '/' || c == '×' || c == '÷'

/-- Python `\s` on the ASCII range. -/
def isSpaceChar (c : Char) : Bool :=
  c == ' ' || c == '\t' || c == '\n' || c == '\r' || c == '\x0b' || c == '\x0c'

/-- Python `\w` on the ASCII range; `×` and `÷` are (correctly) not word
characters. -/
def isWordChar (c : Char) : Bool :=
  c.isAlphanum || c == '_'

/-- Characters that can appear inside a `MATH_PATTERN` match. -/
def isCandChar (c : Char) : Bool :=
  c.isDigit || c == '.' || isOpChar c || isSpaceChar c

/-! ### The extractor: `MATH_PATTERN` and `re.findall`

`MATH_PATTERN` is
`\b(\d+(?:\.\d+)?\s*[+\-*/×÷]\s*\d+(?:\.\d+)?(?:\s*[+\-*/×÷]\s*\d+(?:\.\d+)?)*)\b`.

A match is `NUMBER (\s* OP \s* NUMBER)+` with a word boundary on both
sides.  The matched body always starts and ends with a digit, so the
leading boundary holds iff the previous character is absent or non-word,
and the trailing boundary holds iff the next character is absent or
non-word.  When the trailing boundary fails, Python's engine backtracks:
shortening a `\d+` never helps (the following character would then be a
digit, i.e. a word character), so the engine effectively

  1. drops the optional fractional part of the final number (the next
     character is then `.`, which is non-word, so this always succeeds), or
  2. failing that, drops the final `\s*OP\s*NUMBER` repetition entirely
     (the next character is then whitespace or an operator, non-word,
     so this succeeds whenever at least one repetition remains).

Dropping the first number's fractional part can never create a match
(the following `.` cannot start a repetition), so a candidate with a
single repetition and no fractional part in its last number simply fails.
-/

/-- Parse `\d+(?:\.\d+)?` with maximal munch.  Returns
`(integer digits, fractional part including the dot or [], rest)`. -/
def parseNumber (l : List Char) : Option (List Char × List Char × List Char) :=
  let ds := l.takeWhile Char.isDigit
  let r := l.dropWhile Char.isDigit
  if ds.isEmpty then none
  else
    match r with
    | '.' :: r2 =>
      let fs := r2.takeWhile Char.isDigit
      if fs.isEmpty then some (ds, [], r)
      else some (ds, '.' :: fs, r2.dropWhile Char.isDigit)
    | _ => some (ds, [], r)

/-- Parse one repetition `\s*[+\-*/×÷]\s*\d+(?:\.\d+)?`.  Returns
`(consumed up to and including the integer digits, fractional part, rest)`. -/
def parseRep (l : List Char) : Option (List Char × List Char × List Char) :=
  let ws1 := l.takeWhile isSpaceChar
  let r1 := l.dropWhile isSpaceChar
  match r1 with
  | c :: r2 =>
    if isOpChar c then
      let ws2 := r2.takeWhile isSpaceChar
      let r3 := r2.dropWhile isSpaceChar
      match parseNumber r3 with
      | some (ds, fr, r4) => some (ws1 ++ c :: (ws2 ++ ds), fr, r4)
      | none => none
    else none
  | [] => none

/-- Greedily parse as many repetitions as possible. -/
def parseRepsAux : Nat → List Char → List (List Char × List Char) × List Char
  | 0, l => ([], l)
  | n + 1, l =>
    match parseRep l with
    | none => ([], l)
    | some (pre, fr, r) =>
      let p := parseRepsAux n r
      ((pre, fr) :: p.1, p.2)

def joinReps (reps : List (List Char × List Char)) : List Char :=
  (reps.map (fun p => p.1 ++ p.2)).flatten

/-- The trailing `\b`: the match body ends in a digit, so the boundary
holds iff the rest is empty or starts with a non-word character. -/
def boundaryOkB (l : List Char) : Bool :=
  match l with
  | [] => true
  | c :: _ => !(isWordChar c)

/-- Attempt a `MATH_PATTERN` match anchored at the head of `l` (the caller
has already checked the leading word boundary and that the head is a
digit).  Returns `(matched body, rest of the input)`. -/
def matchAt (l : List Char) : Option (List Char × List Char) :=
  match parseNumber l with
  | none => none
  | some (ds, fr, r0) =>
    let p := parseRepsAux (r0.length + 1) r0
    match p.1 with
    | [] => none
    | _ :: _ =>
      let lastRep := p.1.getLastD ([], [])
      let initReps := p.1.dropLast
      if boundaryOkB p.2 then some (ds ++ fr ++ joinReps p.1, p.2)
      else if !lastRep.2.isEmpty then
        -- backtrack: drop the fractional part of the final number
        if boundaryOkB (lastRep.2 ++ p.2) then
          some (ds ++ fr ++ joinReps initReps ++ lastRep.1, lastRep.2 ++ p.2)
        else none
      else
        match initReps with
        | [] => none
        | _ :: _ =>
          -- backtrack: drop the final repetition entirely
          if boundaryOkB (lastRep.1 ++ lastRep.2 ++ p.2) then
            some (ds ++ fr ++ joinReps initReps, lastRep.1 ++ lastRep.2 ++ p.2)
          else none

/-- `re.findall` scan: try a match at each position, left to right,
continuing after the end of each match.  `prev` is the character before
the current position (for the leading word boundary). -/
def scanAux : Nat → Option Char → List Char → List (List Char)
  | 0, _, _ => []
  | _ + 1, _, [] => []
  | n + 1, prev, c :: rest =>
    let boundary :=
      match prev with
      | none => true
      | some p => !(isWordChar p)
    if c.isDigit && boundary then
      match matchAt (c :: rest) with
      | some (m, r) => m :: scanAux n (some (m.getLastD c)) r
      | none => scanAux n (some c) rest
    else scanAux n (some c) rest

def findallChars (l : List Char) : List (List Char) :=
  scanAux (l.length + 1) none l

/-- `MATH_PATTERN.findall(text)`. -/
def findall (s : String) : List String :=
  (findallChars s.data).map (fun l => String.mk l)

/-! ### The evaluator: `simple_eval` on the arithmetic token language

`simpleeval.simple_eval` parses its argument with Python's `ast.parse`
and walks the tree, allowing numeric constants, binary `+ - * /` (and
others that cannot occur here) and unary `+`/`-`.  We model it for the
token language that can reach it in this program: numeric literals,
the four operators and whitespace.  Any other character is a parse
error (`badExpr` — the program treats every non-`ZeroDivisionError`
exception alike: the candidate is invalid or silently dropped).
Python rejects decimal integer literals with a leading zero unless all
digits are zero; float literals have no such restriction.  Division is
Python's true division: it always yields a float and raises
`ZeroDivisionError` on a zero divisor. -/

inductive Tok where
  | tint (n : ℤ)
  | tfloat (q : ℚ)
  | tplus
  | tminus
  | tstar
  | tslash
deriving DecidableEq

def digitsToNat (ds : List Char) : Nat :=
  ds.foldl (fun n c => 10 * n + (c.toNat - 48)) 0

/-- Python allows `0`, `00`, ... but rejects `05`, `007`, ... as integer
literals. -/
def intLitOk (ds : List Char) : Bool :=
  match ds with
  | '0' :: _ :: _ => ds.all (fun c => c == '0')
  | _ => true

def tokenizeAux : Nat → List Char → Option (List Tok)
  | 0, _ => none
  | _ + 1, [] => some []
  | n + 1, c :: r =>
    if isSpaceChar c then tokenizeAux n r
    else if c == '+' then (tokenizeAux n r).map (fun ts => Tok.tplus :: ts)
    else if c == '-' then (tokenizeAux n r).map (fun ts => Tok.tminus :: ts)
    else if c == '*' then (tokenizeAux n r).map (fun ts => Tok.tstar :: ts)
    else if c == '/' then (tokenizeAux n r).map (fun ts => Tok.tslash :: ts)
    else if c.isDigit then
      let ds := (c :: r).takeWhile Char.isDigit
      let r1 := (c :: r).dropWhile Char.isDigit
      match r1 with
      | '.' :: r2 =>
        let fs := r2.takeWhile Char.isDigit
        let r3 := r2.dropWhile Char.isDigit
        (tokenizeAux n r3).map (fun ts =>
          Tok.tfloat ((digitsToNat ds : ℚ) + (digitsToNat fs : ℚ) / (10 : ℚ) ^ fs.length) :: ts)
      | _ =>
        if intLitOk ds then
          (tokenizeAux n r1).map (fun ts => Tok.tint (digitsToNat ds : ℤ) :: ts)
        else none
    else if c == '.' then
      match r with
      | d :: _ =>
        if d.isDigit then
          let fs := r.takeWhile Char.isDigit
          let r2 := r.dropWhile Char.isDigit
          (tokenizeAux n r2).map (fun ts =>
            Tok.tfloat ((digitsToNat fs : ℚ) / (10 : ℚ) ^ fs.length) :: ts)
        else none
      | [] => none
    else none

inductive Aexp where
  | litInt (n : ℤ)
  | litFloat (q : ℚ)
  | unaryAdd (a : Aexp)
  | unarySub (a : Aexp)
  | add (a b : Aexp)
  | sub (a b : Aexp)
  | mul (a b : Aexp)
  | div (a b : Aexp)
deriving DecidableEq

/-- `factor := ('+' | '-') factor | NUMBER` (Python unary signs). -/
def parseFactor : Nat → List Tok → Option (Aexp × List Tok)
  | 0, _ => none
  | n + 1, Tok.tplus :: ts => (parseFactor n ts).map (fun p => (Aexp.unaryAdd p.1, p.2))
  | n + 1, Tok.tminus :: ts => (parseFactor n ts).map (fun p => (Aexp.unarySub p.1, p.2))
  | _ + 1, Tok.tint k :: ts => some (Aexp.litInt k, ts)
  | _ + 1, Tok.tfloat q :: ts => some (Aexp.litFloat q, ts)
  | _ + 1, _ => none

def parseTermLoop : Nat → Aexp → List Tok → Option (Aexp × List Tok)
  | 0, _, _ => none
  | n + 1, a, Tok.tstar :: ts =>
    match parseFactor n ts with
    | some (b, ts2) => parseTermLoop n (Aexp.mul a b) ts2
    | none => none
  | n + 1, a, Tok.tslash :: ts =>
    match parseFactor n ts with
    | some (b, ts2) => parseTermLoop n (Aexp.div a b) ts2
    | none => none
  | _ + 1, a, ts => some (a, ts)

/-- `term := factor (('*' | '/') factor)*`. -/
def parseTerm (n : Nat) (ts : List Tok) : Option (Aexp × List Tok) :=
  match parseFactor n ts with
  | some (a, ts2) => parseTermLoop n a ts2
  | none => none

def parseExprLoop : Nat → Aexp → List Tok → Option (Aexp × List Tok)
  | 0, _, _ => none
  | n + 1, a, Tok.tplus :: ts =>
    match parseTerm n ts with
    | some (b, ts2) => parseExprLoop n (Aexp.add a b) ts2
    | none => none
  | n + 1, a, Tok.tminus :: ts =>
    match parseTerm n ts with
    | some (b, ts2) => parseExprLoop n (Aexp.sub a b) ts2
    | none => none
  | _ + 1, a, ts => some (a, ts)

/-- `expr := term (('+' | '-') term)*`. -/
def parseExpr (n : Nat) (ts : List Tok) : Option (Aexp × List Tok) :=
  match parseTerm n ts with
  | some (a, ts2) => parseExprLoop n a ts2
  | none => none

/-- A Python number: `int` (arbitrary precision) or `float` (modelled as
an exact rational). -/
inductive PyNum where
  | pint (n : ℤ)
  | pfloat (q : ℚ)
deriving DecidableEq

def PyNum.toQ : PyNum → ℚ
  | .pint n => (n : ℚ)
  | .pfloat q => q

inductive EvalErr where
  | zeroDivision
  | badExpr
deriving DecidableEq

inductive EvalResult where
  | ok (v : PyNum)
  | err (e : EvalErr)
deriving DecidableEq

def EvalResult.isOk : EvalResult → Bool
  | .ok _ => true
  | .err _ => false

def pyAdd : PyNum → PyNum → PyNum
  | .pint a, .pint b => .pint (a + b)
  | a, b => .pfloat (a.toQ + b.toQ)

def pySub : PyNum → PyNum → PyNum
  | .pint a, .pint b => .pint (a - b)
  | a, b => .pfloat (a.toQ - b.toQ)

def pyMul : PyNum → PyNum → PyNum
  | .pint a, .pint b => .pint (a * b)
  | a, b => .pfloat (a.toQ * b.toQ)

def evalA : Aexp → EvalResult
  | .litInt n => .ok (.pint n)
  | .litFloat q => .ok (.pfloat q)
  | .unaryAdd a => evalA a
  | .unarySub a =>
    match evalA a with
    | .ok (.pint n) => .ok (.pint (-n))
    | .ok (.pfloat q) => .ok (.pfloat (-q))
    | .err e => .err e
  | .add a b =>
    match evalA a, evalA b with
    | .ok x, .ok y => .ok (pyAdd x y)
    | .err e, _ => .err e
    | _, .err e => .err e
  | .sub a b =>
    match evalA a, evalA b with
    | .ok x, .ok y => .ok (pySub x y)
    | .err e, _ => .err e
    | _, .err e => .err e
  | .mul a b =>
    match evalA a, evalA b with
    | .ok x, .ok y => .ok (pyMul x y)
    | .err e, _ => .err e
    | _, .err e => .err e
  | .div a b =>
    match evalA a, evalA b with
    | .ok x, .ok y =>
      if y.toQ = 0 then .err .zeroDivision
      else .ok (.pfloat (x.toQ / y.toQ))
    | .err e, _ => .err e
    | _, .err e => .err e

/-- `simple_eval`: tokenize, parse the whole string as one expression,
evaluate.  Any leftover input is a parse error. -/
def simple_eval (l : List Char) : EvalResult :=
  match tokenizeAux (l.length + 1) l with
  | none => .err .badExpr
  | some ts =>
    match parseExpr (ts.length + 1) ts with
    | some (a, []) => evalA a
    | _ => .err .badExpr

/-! ### The validator: `is_valid_math_expression` (lines 107-131)

`clean_expr = expr.strip().replace(" ", "").replace("×", "*").replace("÷", "/")`,
then: reject a trailing operator, reject a leading `*`/`/`/`×`/`÷`,
require at least one operator, and finally attempt
`simple_eval(clean_expr.replace("×", "*").replace("÷", "/"))` — any
exception makes the candidate invalid. -/

/-- Python `str.strip()` (ASCII whitespace). -/
def pyStrip (l : List Char) : List Char :=
  ((l.dropWhile isSpaceChar).reverse.dropWhile isSpaceChar).reverse

/-- `.replace(" ", "")`. -/
def removeSpaces (l : List Char) : List Char :=
  l.filter (fun c => !(c == ' '))

def timesToStar (c : Char) : Char := if c == '×' then '*' else c

def divToSlash (c : Char) : Char := if c == '÷' then '/' else c

/-- `.replace("×", "*")` (single-character replace). -/
def normTimes (l : List Char) : List Char := l.map timesToStar

/-- `.replace("÷", "/")` (single-character replace). -/
def normDiv (l : List Char) : List Char := l.map divToSlash

/-- `clean_expr` as built at line 110. -/
def clean_expr_of (l : List Char) : List Char :=
  normDiv (normTimes (removeSpaces (pyStrip l)))

/-- `clean_expr.endswith(('+', '-', '*', '/', '×', '÷'))`. -/
def opEnds (l : List Char) : Bool :=
  match l.getLast? with
  | some c => isOpChar c
  | none => false

/-- `clean_expr.startswith(('*', '/', '×', '÷'))`. -/
def startsMulDiv (l : List Char) : Bool :=
  match l with
  | c :: _ => isMulDivChar c
  | [] => false

def is_valid_math_expression (s : String) : Bool :=
  let clean_expr := clean_expr_of s.data
  if opEnds clean_expr then false
  else if startsMulDiv clean_expr then false
  else if !(clean_expr.any isOpChar) then false
  else
    match simple_eval (normDiv (normTimes clean_expr)) with
    | .ok _ => true
    | .err _ => false

/-! ### Result formatting and replies (`calculate_expression`, lines 408-479)

For a float result: collapse to `int` when `result.is_integer()`;
otherwise `rounded = round(result, 8)`, collapse to `int(round(rounded))`
when `abs(rounded - round(rounded)) < 1e-10`, else keep
`round(rounded, 6)`.  Python's `round` is round-half-to-even.  The reply
is `f"{original} = {result}"`; Python prints an `int` without a decimal
point and a float with at least one fractional digit (`2.0`, `2.5`).
The printed form is the shortest decimal, which for the at-most-6-decimal
values produced here is exactly the decimal digits with trailing zeros
stripped. -/

/-- Python `round(q)`: round half to even. -/
def roundHalfEven (q : ℚ) : ℤ :=
  let f := ⌊q⌋
  let r := q - (f : ℚ)
  if r < 1 / 2 then f
  else if 1 / 2 < r then f + 1
  else if f % 2 = 0 then f else f + 1

/-- Python `round(q, n)` for exact rationals. -/
def roundTo (n : Nat) (q : ℚ) : ℚ :=
  (roundHalfEven (q * (10 : ℚ) ^ n) : ℚ) / (10 : ℚ) ^ n

/-- The float-result post-processing of lines 418-428. -/
def pyFormat : PyNum → PyNum
  | .pint n => .pint n
  | .pfloat q =>
    if q.den = 1 then .pint q.num
    else
      let rounded := roundTo 8 q
      if |rounded - (roundHalfEven rounded : ℚ)| < 1 / 10000000000 then
        .pint (roundHalfEven rounded)
      else .pfloat (roundTo 6 rounded)

def stripTrailingZeros (l : List Char) : List Char :=
  (l.reverse.dropWhile (fun c => c == '0')).reverse

def padSixZeros (l : List Char) : List Char :=
  List.replicate (6 - l.length) '0' ++ l

/-- The fractional digits of `k / 10^6`, trailing zeros stripped, at
least one digit. -/
def fracDigitsRepr (k : Nat) : String :=
  let ds := stripTrailingZeros (padSixZeros (Nat.toDigits 10 k))
  if ds.isEmpty then "0" else String.mk ds

/-- Python `str` of a float whose value has at most 6 decimal places. -/
def pyFloatRepr (q : ℚ) : String :=
  if q.den = 1 then toString q.num ++ ".0"
  else
    let s := if q < 0 then "-" else ""
    let a := |q|
    let ip := (⌊a⌋).toNat
    let frac := ((a - (⌊a⌋ : ℚ)) * 1000000).num.toNat
    s ++ toString ip ++ "." ++ fracDigitsRepr frac

/-- Python `f"{result}"` for an `int` or `float` result. -/
def pyDisplay : PyNum → String
  | .pint n => toString n
  | .pfloat q => pyFloatRepr q

/-- Modelled from the spec wording of claim C4 (for comparison with the
code's `pyFormat`): display an integer when the raw value is within
`1e-10` of an integer, otherwise the value rounded to at most 6 decimal
places. -/
def specC4Display (q : ℚ) : String :=
  if |q - (roundHalfEven q : ℚ)| ≤ 1 / 10000000000 then toString (roundHalfEven q)
  else pyFloatRepr (roundTo 6 q)

/-- What the handler does with one validated expression: a normal reply,
the division-by-zero error reply (`MESSAGES['division_error']`), or a
silent drop (logged only). -/
inductive Outcome where
  | reply (text : String)
  | divisionErrorReply (text : String)
  | droppedInvalid
deriving DecidableEq

def Outcome.isReply : Outcome → Bool
  | .reply _ => true
  | _ => false

/-- `original = expr.strip().replace(" ", "")` (line 410). -/
def originalOf (s : String) : String :=
  String.mk (removeSpaces (pyStrip s.data))

/-- `safe = original.replace("×", "*").replace("÷", "/")` (line 411). -/
def safeOf (s : String) : List Char :=
  normDiv (normTimes (removeSpaces (pyStrip s.data)))

/-- The body of the per-expression loop (lines 408-479): evaluate `safe`;
on success reply `f"{original} = {result}"`; on `ZeroDivisionError` reply
with the `division_error` template; on any other exception log only. -/
def calculate_one (s : String) : Outcome :=
  match simple_eval (safeOf s) with
  | .ok v => .reply (originalOf s ++ " = " ++ pyDisplay (pyFormat v))
  | .err .zeroDivision =>
    .divisionErrorReply ("❌ Error: Division by zero in '" ++ originalOf s ++ "'")
  | .err .badExpr => .droppedInvalid

/-- The `for expr in valid_matches` loop: each iteration's exceptions are
caught inside the loop body, so every element is processed. -/
def calc_loop : List String → List Outcome
  | [] => []
  | e :: rest => calculate_one e :: calc_loop rest

/-- `valid_matches` (lines 375-381). -/
def valid_matches (text : String) : List String :=
  (findall text).filter is_valid_math_expression

/-- The outcomes `calculate_expression` produces for one message (the
empty list means no valid expression: the caller then sends the
`calculator_reminder` in private chats or replies to the bot). -/
def calculate_expression (text : String) : List Outcome :=
  calc_loop (valid_matches text)

/-- The facts we need about one parsed repetition. -/
def RepGood (p : List Char × List Char) : Prop :=
  (∃ c ∈ p.1, isOpChar c = true) ∧
    (∀ c ∈ p.1, isSpaceChar c = true ∨ isOpChar c = true ∨ c.isDigit = true) ∧
    (∀ c ∈ p.2, c.isDigit = true ∨ c = '.')

/-- Characters that can reach `simple_eval` through the pipeline. -/
def isSafeEvalChar (c : Char) : Bool :=
  c.isDigit || c == '.' || c == '+' || c == '-' || c == '*' || c == '/' || isSpaceChar c

/-- `True` exactly for a Python float with an integral value (printed
with a trailing `.0`, like `2.0`). -/
def isIntValuedFloat : PyNum → Bool
  | .pfloat q => q.den == 1
  | .pint _ => false

/-! ### Lemmas about the extractor -/

theorem parseNumber_spec {l ds fr r : List Char}
    (h : parseNumber l = some (ds, fr, r)) :
    ds ++ fr ++ r = l ∧ ds ≠ [] ∧ (∀ c ∈ ds, c.isDigit = true) ∧
      (∀ c ∈ fr, c.isDigit = true ∨ c = '.') := by
  simp only [parseNumber] at h
  split at h
  · exact absurd h (by simp)
  next he =>
    have hne : l.takeWhile Char.isDigit ≠ [] := by
      intro hn
      rw [hn] at he
      simp at he
    split at h
    next r2 hr2 =>
      split at h
      next hfs =>
        simp only [Option.some.injEq, Prod.mk.injEq] at h
        obtain ⟨rfl, rfl, rfl⟩ := h
        refine ⟨?_, hne, fun c hc => List.mem_takeWhile_imp hc, by simp⟩
        simp [List.takeWhile_append_dropWhile]
      next hfs =>
        simp only [Option.some.injEq, Prod.mk.injEq] at h
        obtain ⟨rfl, rfl, rfl⟩ := h
        refine ⟨?_, hne, fun c hc => List.mem_takeWhile_imp hc, ?_⟩
        · have h2 : r2.takeWhile Char.isDigit ++ r2.dropWhile Char.isDigit = r2 :=
            List.takeWhile_append_dropWhile ..
          have hl : l.takeWhile Char.isDigit ++ '.' :: r2 = l := by
            rw [← hr2]
            exact List.takeWhile_append_dropWhile ..
          conv_rhs => rw [← hl]
          conv_rhs => rw [← h2]
          simp
        · intro c hc
          rcases List.mem_cons.mp hc with hc | hc
          · exact Or.inr hc
          · exact Or.inl (List.mem_takeWhile_imp hc)
    next =>
      simp only [Option.some.injEq, Prod.mk.injEq] at h
      obtain ⟨rfl, rfl, rfl⟩ := h
      refine ⟨?_, hne, fun c hc => List.mem_takeWhile_imp hc, by simp⟩
      simp [List.takeWhile_append_dropWhile]

theorem parseRep_spec {l pre fr r : List Char}
    (h : parseRep l = some (pre, fr, r)) :
    pre ++ fr ++ r = l ∧ (∃ c ∈ pre, isOpChar c = true) ∧
      (∀ c ∈ pre, isSpaceChar c = true ∨ isOpChar c = true ∨ c.isDigit = true) ∧
      (∀ c ∈ fr, c.isDigit = true ∨ c = '.') := by
  simp only [parseRep] at h
  split at h
  next c r2 hr2 =>
    split at h
    next hop =>
      split at h
      next ds fr' r4 hnum =>
        simp only [Option.some.injEq, Prod.mk.injEq] at h
        obtain ⟨rfl, rfl, rfl⟩ := h
        obtain ⟨hn1, _, hn3, hn4⟩ := parseNumber_spec hnum
        refine ⟨?_, ⟨c, by simp, hop⟩, ?_, hn4⟩
        · have h2 : r2.takeWhile isSpaceChar ++ r2.dropWhile isSpaceChar = r2 :=
            List.takeWhile_append_dropWhile ..
          have hl : l.takeWhile isSpaceChar ++ c :: r2 = l := by
            rw [← hr2]
            exact List.takeWhile_append_dropWhile ..
          conv_rhs => rw [← hl]
          conv_rhs => rw [← h2]
          conv_rhs => rw [← hn1]
          simp
        · intro c' hc'
          rcases List.mem_append.mp hc' with hc' | hc'
          · exact Or.inl (List.mem_takeWhile_imp hc')
          · rcases List.mem_cons.mp hc' with hc' | hc'
            · subst hc'; exact Or.inr (Or.inl hop)
            · rcases List.mem_append.mp hc' with hc' | hc'
              · exact Or.inl (List.mem_takeWhile_imp hc')
              · exact Or.inr (Or.inr (hn3 c' hc'))
      next => exact absurd h (by simp)
    next => exact absurd h (by simp)
  next => exact absurd h (by simp)

theorem joinReps_cons (p : List Char × List Char) (rs : List (List Char × List Char)) :
    joinReps (p :: rs) = (p.1 ++ p.2) ++ joinReps rs := by
  simp [joinReps]

theorem parseRepsAux_spec : ∀ (n : Nat) (l : List Char),
    joinReps (parseRepsAux n l).1 ++ (parseRepsAux n l).2 = l ∧
      ∀ p ∈ (parseRepsAux n l).1, RepGood p := by
  intro n
  induction n with
  | zero => intro l; simp [parseRepsAux, joinReps]
  | succ n ih =>
    intro l
    unfold parseRepsAux
    split
    · simp [joinReps]
    next pre fr r hrep =>
      obtain ⟨h1, h2, h3, h4⟩ := parseRep_spec hrep
      obtain ⟨ih1, ih2⟩ := ih r
      constructor
      · show (joinReps ((pre, fr) :: (parseRepsAux n r).1)) ++ (parseRepsAux n r).2 = l
        rw [joinReps_cons, List.append_assoc, ih1, ← h1]
      · intro p hp
        rcases List.mem_cons.mp hp with hp | hp
        · subst hp; exact ⟨h2, h3, h4⟩
        · exact ih2 p hp

theorem joinReps_append (a b : List (List Char × List Char)) :
    joinReps (a ++ b) = joinReps a ++ joinReps b := by
  simp [joinReps]

theorem joinReps_chars {reps : List (List Char × List Char)}
    (h : ∀ p ∈ reps, RepGood p) :
    ∀ c ∈ joinReps reps, isCandChar c = true := by
  intro c hc
  simp only [joinReps, List.mem_flatten, List.mem_map] at hc
  obtain ⟨s, ⟨p, hp, rfl⟩, hcs⟩ := hc
  obtain ⟨-, hpre, hfr⟩ := h p hp
  rcases List.mem_append.mp hcs with hc | hc
  · rcases hpre c hc with h' | h' | h' <;> simp [isCandChar, h']
  · rcases hfr c hc with h' | h'
    · simp [isCandChar, h']
    · subst h'; decide

theorem matchAt_spec {l m r : List Char} (h : matchAt l = some (m, r)) :
    m ++ r = l ∧ (∃ c ∈ m, isOpChar c = true) ∧ (∀ c ∈ m, isCandChar c = true) := by
  simp only [matchAt] at h
  split at h
  · exact absurd h (by simp)
  next ds fr r0 hnum =>
    obtain ⟨hn1, hnne, hnds, hnfr⟩ := parseNumber_spec hnum
    obtain ⟨hP1, hP2⟩ := parseRepsAux_spec (r0.length + 1) r0
    have hndsC : ∀ c ∈ ds, isCandChar c = true := by
      intro c hc; simp [isCandChar, hnds c hc]
    have hnfrC : ∀ c ∈ fr, isCandChar c = true := by
      intro c hc
      rcases hnfr c hc with h' | h'
      · simp [isCandChar, h']
      · subst h'; decide
    split at h
    · exact absurd h (by simp)
    next head tail hcons =>
      rw [hcons] at h hP1 hP2
      have hne : head :: tail ≠ [] := by simp
      have hlastmem : (head :: tail).getLastD ([], []) ∈ head :: tail := by
        rw [List.getLastD_eq_getLast?, List.getLast?_eq_getLast _ hne]
        exact List.getLast_mem hne
      have hsplit : (head :: tail).dropLast ++ [(head :: tail).getLastD ([], [])] =
          head :: tail := by
        rw [List.getLastD_eq_getLast?, List.getLast?_eq_getLast _ hne]
        exact List.dropLast_append_getLast hne
      have hj : joinReps (head :: tail) =
          joinReps ((head :: tail).dropLast) ++
            (((head :: tail).getLastD ([], [])).1 ++ ((head :: tail).getLastD ([], [])).2) := by
        conv_lhs => rw [← hsplit]
        rw [joinReps_append]
        simp [joinReps]
      have hdropGood : ∀ p ∈ (head :: tail).dropLast, RepGood p := by
        intro p hp
        exact hP2 p ((List.dropLast_sublist (head :: tail)).subset hp)
      have hheadj : ∀ c ∈ head.1, c ∈ joinReps (head :: tail) := by
        intro c hc
        simp only [joinReps, List.mem_flatten, List.mem_map]
        exact ⟨head.1 ++ head.2, ⟨head, by simp, rfl⟩, List.mem_append.mpr (Or.inl hc)⟩
      split at h
      next hb =>
        simp only [Option.some.injEq, Prod.mk.injEq] at h
        obtain ⟨rfl, rfl⟩ := h
        refine ⟨?_, ?_, ?_⟩
        · conv_rhs => rw [← hn1]
          conv_rhs => rw [← hP1]
          simp
        · obtain ⟨c, hc, hcop⟩ := (hP2 head (by simp)).1
          exact ⟨c, List.mem_append.mpr (Or.inr (hheadj c hc)), hcop⟩
        · intro c hc
          simp only [List.mem_append] at hc
          rcases hc with (hc | hc) | hc
          · exact hndsC c hc
          · exact hnfrC c hc
          · exact joinReps_chars hP2 c hc
      next hb =>
        split at h
        next hfrne =>
          split at h
          next hb2 =>
            simp only [Option.some.injEq, Prod.mk.injEq] at h
            obtain ⟨rfl, rfl⟩ := h
            refine ⟨?_, ?_, ?_⟩
            · conv_rhs => rw [← hn1]
              conv_rhs => rw [← hP1]
              conv_rhs => rw [hj]
              simp
            · obtain ⟨c, hc, hcop⟩ := (hP2 _ hlastmem).1
              exact ⟨c, List.mem_append.mpr (Or.inr hc), hcop⟩
            · intro c hc
              simp only [List.mem_append] at hc
              rcases hc with ((hc | hc) | hc) | hc
              · exact hndsC c hc
              · exact hnfrC c hc
              · exact joinReps_chars hdropGood c hc
              · obtain ⟨-, hpre, -⟩ := hP2 _ hlastmem
                rcases hpre c hc with h' | h' | h' <;> simp [isCandChar, h']
          next => exact absurd h (by simp)
        next hfre =>
          split at h
          · exact absurd h (by simp)
          next q qs hinit =>
            split at h
            next hb3 =>
              simp only [Option.some.injEq, Prod.mk.injEq] at h
              obtain ⟨rfl, rfl⟩ := h
              rw [hinit] at hj hdropGood
              refine ⟨?_, ?_, ?_⟩
              · conv_rhs => rw [← hn1]
                conv_rhs => rw [← hP1]
                conv_rhs => rw [hj]
                rw [hinit]
                simp
              · obtain ⟨c, hc, hcop⟩ := (hdropGood q (by simp)).1
                have hcj : c ∈ joinReps (q :: qs) := by
                  simp only [joinReps, List.mem_flatten, List.mem_map]
                  exact ⟨q.1 ++ q.2, ⟨q, by simp, rfl⟩, List.mem_append.mpr (Or.inl hc)⟩
                refine ⟨c, ?_, hcop⟩
                rw [hinit]
                exact List.mem_append.mpr (Or.inr hcj)
              · intro c hc
                rw [hinit] at hc
                simp only [List.mem_append] at hc
                rcases hc with (hc | hc) | hc
                · exact hndsC c hc
                · exact hnfrC c hc
                · exact joinReps_chars hdropGood c hc
            next => exact absurd h (by simp)

theorem scanAux_spec : ∀ (n : Nat) (prev : Option Char) (l : List Char),
    ∀ m ∈ scanAux n prev l,
      (∃ c ∈ m, isOpChar c = true) ∧ (∀ c ∈ m, isCandChar c = true) ∧ ∀ c ∈ m, c ∈ l := by
  intro n
  induction n with
  | zero => intro prev l m hm; simp [scanAux] at hm
  | succ n ih =>
    intro prev l m hm
    match l with
    | [] => simp [scanAux] at hm
    | c :: rest =>
      rw [scanAux.eq_def] at hm
      simp only [] at hm
      split at hm
      · split at hm
        next m0 r hmr =>
          obtain ⟨ha, hop, hcand⟩ := matchAt_spec hmr
          rcases List.mem_cons.mp hm with hm | hm
          · subst hm
            refine ⟨hop, hcand, ?_⟩
            intro c' hc'
            rw [← ha]
            exact List.mem_append.mpr (Or.inl hc')
          · obtain ⟨h1, h2, h3⟩ := ih _ r m hm
            refine ⟨h1, h2, ?_⟩
            intro c' hc'
            rw [← ha]
            exact List.mem_append.mpr (Or.inr (h3 c' hc'))
        next =>
          obtain ⟨h1, h2, h3⟩ := ih _ rest m hm
          exact ⟨h1, h2, fun c' hc' => List.mem_cons.mpr (Or.inr (h3 c' hc'))⟩
      · obtain ⟨h1, h2, h3⟩ := ih _ rest m hm
        exact ⟨h1, h2, fun c' hc' => List.mem_cons.mpr (Or.inr (h3 c' hc'))⟩

theorem findallChars_spec {l : List Char} {m : List Char} (hm : m ∈ findallChars l) :
    (∃ c ∈ m, isOpChar c = true) ∧ (∀ c ∈ m, isCandChar c = true) ∧ ∀ c ∈ m, c ∈ l :=
  scanAux_spec _ none l m hm

/-! ### Lemmas about cleaning and normalization -/

theorem norm_char_cand {c : Char} (h : isCandChar c = true) :
    isSafeEvalChar (divToSlash (timesToStar c)) = true := by
  by_cases h1 : c = '×'
  · subst h1; decide
  · by_cases h2 : c = '÷'
    · subst h2; decide
    · have himg : divToSlash (timesToStar c) = c := by
        simp [timesToStar, divToSlash, h1, h2]
      rw [himg]
      simp only [isCandChar, Bool.or_eq_true, beq_iff_eq] at h
      rcases h with ((h | h) | h) | h
      · simp [isSafeEvalChar, h]
      · subst h; decide
      · simp only [isOpChar, Bool.or_eq_true, beq_iff_eq] at h
        rcases h with ((((h | h) | h) | h) | h) | h
        · subst h; decide
        · subst h; decide
        · subst h; decide
        · subst h; decide
        · exact absurd h h1
        · exact absurd h h2
      · unfold isSafeEvalChar
        rw [h]
        simp

theorem mem_pyStrip {l : List Char} {c : Char} (h : c ∈ pyStrip l) : c ∈ l := by
  unfold pyStrip at h
  rw [List.mem_reverse] at h
  have h2 := (List.dropWhile_sublist _).subset h
  rw [List.mem_reverse] at h2
  exact (List.dropWhile_sublist _).subset h2

theorem clean_chars {l : List Char} (h : ∀ c ∈ l, isCandChar c = true) :
    ∀ c ∈ clean_expr_of l, isSafeEvalChar c = true := by
  intro c hc
  simp only [clean_expr_of, normDiv, normTimes, removeSpaces, List.mem_map,
    List.mem_filter] at hc
  obtain ⟨b, ⟨a, ⟨ha, -⟩, rfl⟩, rfl⟩ := hc
  exact norm_char_cand (h a (mem_pyStrip ha))

theorem norm_char_idem (c : Char) :
    divToSlash (timesToStar (divToSlash (timesToStar c))) = divToSlash (timesToStar c) := by
  by_cases h1 : c = '×'
  · subst h1; decide
  · by_cases h2 : c = '÷'
    · subst h2; decide
    · simp [timesToStar, divToSlash, h1, h2]

theorem norm_map_idem (l : List Char) :
    normDiv (normTimes (normDiv (normTimes l))) = normDiv (normTimes l) := by
  induction l with
  | nil => rfl
  | cons c cs ih =>
    simp only [normTimes, normDiv, List.map_cons] at ih ⊢
    rw [norm_char_idem c, ih]

/-- The string the validator's trial evaluation sees is exactly the string
the handler later evaluates (`safe` at line 411 equals `safe_expr` at
line 126). -/
theorem trial_eq_safe (s : String) :
    normDiv (normTimes (clean_expr_of s.data)) = safeOf s :=
  norm_map_idem (removeSpaces (pyStrip s.data))

/-! ### Lemmas about rounding and formatting -/

theorem roundHalfEven_intCast (n : ℤ) : roundHalfEven (n : ℚ) = n := by
  simp [roundHalfEven, Int.floor_intCast]

theorem roundHalfEven_eq_of_near {N : ℤ} {x : ℚ} (h : |x - (N : ℚ)| < 1 / 2) :
    roundHalfEven x = N := by
  rw [abs_lt] at h
  obtain ⟨h1, h2⟩ := h
  rcases le_or_lt (N : ℚ) x with hge | hlt
  · have hf : ⌊x⌋ = N := by
      rw [Int.floor_eq_iff]
      refine ⟨hge, ?_⟩
      linarith
    have hr : x - (⌊x⌋ : ℚ) < 1 / 2 := by
      rw [hf]
      linarith
    simp only [roundHalfEven]
    rw [if_pos hr, hf]
  · have hf : ⌊x⌋ = N - 1 := by
      rw [Int.floor_eq_iff]
      constructor
      · push_cast; linarith
      · push_cast; linarith
    have hr1 : ¬(x - (⌊x⌋ : ℚ) < 1 / 2) := by
      rw [hf]; push_cast; intro hcon; linarith
    have hr2 : 1 / 2 < x - (⌊x⌋ : ℚ) := by
      rw [hf]; push_cast; linarith
    simp only [roundHalfEven]
    rw [if_neg hr1, if_pos hr2, hf]
    ring

theorem roundTo_den_one {k : Nat} {q : ℚ} (h : (q * (10 : ℚ) ^ k).den = 1) :
    roundTo k q = q := by
  unfold roundTo
  have hx : ((q * (10 : ℚ) ^ k).num : ℚ) = q * (10 : ℚ) ^ k := (Rat.den_eq_one_iff _).mp h
  have hr : (roundHalfEven (q * (10 : ℚ) ^ k) : ℚ) = q * (10 : ℚ) ^ k := by
    rw [← hx, roundHalfEven_intCast]
  rw [hr]
  exact mul_div_cancel_right₀ q (by positivity)

theorem den_one_mul_int {x : ℚ} (h : x.den = 1) (c : ℤ) : (x * (c : ℚ)).den = 1 := by
  have hx : (x.num : ℚ) = x := (Rat.den_eq_one_iff x).mp h
  rw [← hx, ← Int.cast_mul]
  exact Rat.den_intCast _

theorem roundTo6_scaled_den (q : ℚ) : (roundTo 6 q * (10 : ℚ) ^ 6).den = 1 := by
  unfold roundTo
  rw [div_mul_cancel₀ _ (by positivity : ((10 : ℚ) ^ 6) ≠ 0)]
  exact Rat.den_intCast _

theorem den_one_ten8 {q : ℚ} (h : (q * (10 : ℚ) ^ 6).den = 1) :
    (q * (10 : ℚ) ^ 8).den = 1 := by
  have he : q * (10 : ℚ) ^ 8 = (q * (10 : ℚ) ^ 6) * ((100 : ℤ) : ℚ) := by
    push_cast
    ring
  rw [he]
  exact den_one_mul_int h 100

theorem int_dist_ge {q : ℚ} (h6 : (q * (10 : ℚ) ^ 6).den = 1) (hden : q.den ≠ 1) (z : ℤ) :
    ¬(|q - (z : ℚ)| < 1 / 10000000000) := by
  intro hlt
  have hx : ((q * (10 : ℚ) ^ 6).num : ℚ) = q * (10 : ℚ) ^ 6 := (Rat.den_eq_one_iff _).mp h6
  set m := (q * (10 : ℚ) ^ 6).num with hm
  have hq : q = (m : ℚ) / 10 ^ 6 := by
    rw [eq_div_iff (by positivity : ((10 : ℚ) ^ 6) ≠ 0), ← hx]
  have hne : q ≠ (z : ℚ) := by
    intro he
    apply hden
    rw [he]
    exact Rat.den_intCast z
  have hnez : (m - z * 10 ^ 6 : ℤ) ≠ 0 := by
    intro h0
    apply hne
    have hmz : m = z * 10 ^ 6 := by omega
    rw [hq, hmz]
    push_cast
    exact mul_div_cancel_right₀ _ (by positivity)
  have hnum : q - (z : ℚ) = ((m - z * 10 ^ 6 : ℤ) : ℚ) / 10 ^ 6 := by
    rw [hq]
    push_cast
    ring
  have hge : (1 : ℚ) / 10 ^ 6 ≤ |q - (z : ℚ)| := by
    rw [hnum, abs_div]
    have h1 : (1 : ℚ) ≤ |((m - z * 10 ^ 6 : ℤ) : ℚ)| := by
      have h2 := Int.one_le_abs hnez
      have h3 : ((1 : ℤ) : ℚ) ≤ ((|m - z * 10 ^ 6| : ℤ) : ℚ) := by exact_mod_cast h2
      rw [Int.cast_abs] at h3
      simpa using h3
    have h2 : |(10 : ℚ) ^ 6| = 10 ^ 6 := abs_of_pos (by positivity)
    rw [h2]
    gcongr
  have hsmall : (1 : ℚ) / 10000000000 < 1 / 10 ^ 6 := by norm_num
  linarith

theorem pyFormat_near {q : ℚ}
    (h : |q - (roundHalfEven q : ℚ)| < 1 / 10000000000) :
    pyFormat (.pfloat q) = .pint (roundHalfEven q) := by
  by_cases hden : q.den = 1
  · have hx : (q.num : ℚ) = q := (Rat.den_eq_one_iff q).mp hden
    have hr : roundHalfEven q = q.num := by
      conv_lhs => rw [← hx]
      exact roundHalfEven_intCast q.num
    simp [pyFormat, hden, hr]
  · set N := roundHalfEven q with hN
    have h8 : roundHalfEven (q * (10 : ℚ) ^ 8) = N * 10 ^ 8 := by
      apply roundHalfEven_eq_of_near
      have he : q * (10 : ℚ) ^ 8 - ((N * 10 ^ 8 : ℤ) : ℚ) = (q - (N : ℚ)) * 10 ^ 8 := by
        push_cast
        ring
      rw [he, abs_mul, abs_of_pos (by positivity : (0 : ℚ) < 10 ^ 8)]
      calc |q - (N : ℚ)| * 10 ^ 8 < (1 / 10000000000) * 10 ^ 8 := by
            exact mul_lt_mul_of_pos_right h (by positivity)
        _ < 1 / 2 := by norm_num
    have hrounded : roundTo 8 q = (N : ℚ) := by
      unfold roundTo
      rw [h8]
      push_cast
      exact mul_div_cancel_right₀ _ (by positivity)
    have hrr : roundHalfEven (roundTo 8 q) = N := by
      rw [hrounded]
      exact roundHalfEven_intCast N
    have hcond : |roundTo 8 q - (roundHalfEven (roundTo 8 q) : ℚ)| < 1 / 10000000000 := by
      rw [hrr, hrounded]
      simp
    simp only [pyFormat]
    rw [if_neg hden, if_pos hcond, hrr]

theorem pyFormat_far {q : ℚ}
    (h : ¬(|roundTo 8 q - (roundHalfEven (roundTo 8 q) : ℚ)| < 1 / 10000000000)) :
    pyFormat (.pfloat q) = .pfloat (roundTo 6 (roundTo 8 q)) := by
  have hden : q.den ≠ 1 := by
    intro hden
    apply h
    have hx : (q.num : ℚ) = q := (Rat.den_eq_one_iff q).mp hden
    have h8den : (q * (10 : ℚ) ^ 8).den = 1 := by
      rw [← hx, ← Int.cast_ofNat, ← Int.cast_pow, ← Int.cast_mul]
      exact Rat.den_intCast _
    have hr8 : roundTo 8 q = q := roundTo_den_one h8den
    have hrr : roundHalfEven q = q.num := by
      conv_lhs => rw [← hx]
      exact roundHalfEven_intCast q.num
    rw [hr8, hrr, ← hx]
    simp
  simp only [pyFormat]
  rw [if_neg hden, if_neg h]

theorem pyFormat_float_stable {q : ℚ} (h6 : (q * (10 : ℚ) ^ 6).den = 1)
    (hden : q.den ≠ 1) : pyFormat (.pfloat q) = .pfloat q := by
  have h8 : (q * (10 : ℚ) ^ 8).den = 1 := den_one_ten8 h6
  have hr8 : roundTo 8 q = q := roundTo_den_one h8
  have hcond := int_dist_ge h6 hden (roundHalfEven q)
  simp only [pyFormat]
  rw [if_neg hden, hr8, if_neg hcond, roundTo_den_one h6]

/-- `pyFormat` either produces an `int`, or a float whose value has at
most 6 decimal places. -/
theorem pyFormat_output (v : PyNum) :
    (∃ n, pyFormat v = .pint n) ∨
      ∃ q, pyFormat v = .pfloat q ∧ (q * (10 : ℚ) ^ 6).den = 1 := by
  cases v with
  | pint n => exact Or.inl ⟨n, rfl⟩
  | pfloat q =>
    by_cases hden : q.den = 1
    · exact Or.inl ⟨q.num, by simp [pyFormat, hden]⟩
    · by_cases hc : |roundTo 8 q - (roundHalfEven (roundTo 8 q) : ℚ)| < 1 / 10000000000
      · refine Or.inl ⟨roundHalfEven (roundTo 8 q), ?_⟩
        simp only [pyFormat]
        rw [if_neg hden, if_pos hc]
      · refine Or.inr ⟨roundTo 6 (roundTo 8 q), ?_, roundTo6_scaled_den _⟩
        simp only [pyFormat]
        rw [if_neg hden, if_neg hc]


/-! ### The claims -/

section
attribute [local semireducible] Rat.add Rat.mul Rat.inv Rat.sub Rat.ofScientific

/-- C1: the claim says the pipeline signals division by zero for `"5/0"`
and replies `"Error: Division by zero in '5/0'"`.  In the code,
`is_valid_math_expression` performs a trial `simple_eval`, which raises
`ZeroDivisionError` for `"5/0"`; the `except Exception` there returns
`False`, so the candidate is filtered out and the message produces no
reply at all — the `ZeroDivisionError` handler of `calculate_expression`
(and its `MESSAGES['division_error']` reply, which moreover starts with
`"❌ "`) is unreachable for extracted candidates.  This theorem evaluates
the code at the failing input. -/
theorem c1_division_by_zero_is_silently_dropped :
    findall "5/0" = ["5/0"] ∧
    simple_eval (safeOf "5/0") = .err .zeroDivision ∧
    is_valid_math_expression "5/0" = false ∧
    calculate_expression "5/0" = [] ∧
    calculate_one "5/0" =
      .divisionErrorReply "❌ Error: Division by zero in '5/0'" := by
  refine ⟨by decide, by decide, by decide, by decide, by decide⟩

/-- C2: every candidate the extractor hands to the evaluator consists
exclusively of digits, decimal points, the six operator glyphs and
whitespace, and after the `×`/`÷` normalization only of digits, dots,
the four ASCII operators and whitespace.  No identifier, attribute
access or call syntax can reach `simple_eval` through the pipeline, and
the evaluator's term language (`Aexp`) contains only numeric literals
and arithmetic operators, so no name resolution or code execution is
possible for any input message. -/
theorem c2_only_numeric_and_operator_tokens_reach_eval :
    (∀ s : String, (findall s).all (fun m => m.data.all isCandChar) = true) ∧
    ∀ s : String,
      (findall s).all (fun m => (clean_expr_of m.data).all isSafeEvalChar) = true := by
  constructor
  · intro s
    rw [List.all_eq_true]
    intro m hm
    unfold findall at hm
    obtain ⟨l', hl', rfl⟩ := List.mem_map.mp hm
    obtain ⟨-, hcand, -⟩ := findallChars_spec hl'
    exact List.all_eq_true.mpr hcand
  · intro s
    rw [List.all_eq_true]
    intro m hm
    unfold findall at hm
    obtain ⟨l', hl', rfl⟩ := List.mem_map.mp hm
    obtain ⟨-, hcand, -⟩ := findallChars_spec hl'
    exact List.all_eq_true.mpr (clean_chars hcand)

/-- C3: the message `"what is 4+4 and also 10×2?"` produces exactly the
candidates `["4+4", "10×2"]` in order, both validate, and the replies
are `"4+4 = 8"` then `"10×2 = 20"`. -/
theorem c3_end_to_end_two_expressions :
    findall "what is 4+4 and also 10×2?" = ["4+4", "10×2"] ∧
    valid_matches "what is 4+4 and also 10×2?" = ["4+4", "10×2"] ∧
    calculate_expression "what is 4+4 and also 10×2?" =
      [.reply "4+4 = 8", .reply "10×2 = 20"] := by
  refine ⟨by decide, by decide, by decide⟩

/-- C4 counterexample: for the validated expression `"2.000000001+0"`
the raw result `2000000001/1000000000` is at distance `10⁻⁹` from the
nearest integer — not within `10⁻¹⁰` — yet the code displays the bare
integer `"2"`, because the code first rounds to 8 decimal places and
only then applies the `1e-10` test.  Under the claim's rule
(`specC4Display`) the display would be the decimal `"2.0"`. -/
theorem c4_counterexample_collapse_threshold :
    calculate_one "2.000000001+0" = .reply "2.000000001+0 = 2" ∧
    simple_eval (safeOf "2.000000001+0") =
      .ok (.pfloat (2000000001 / 1000000000 : ℚ)) ∧
    ¬(|(2000000001 / 1000000000 : ℚ) -
        ((roundHalfEven (2000000001 / 1000000000 : ℚ) : ℤ) : ℚ)| ≤ 1 / 10000000000) ∧
    specC4Display (2000000001 / 1000000000 : ℚ) = "2.0" ∧
    ("2" : String) ≠ "2.0" := by
  refine ⟨by decide, by decide, by decide, by decide, by decide⟩

/-- C4 amended: the reply is
`"<original stripped of spaces> = <formatted result>"`; a float result
within `1e-10` of an integer displays as that integer without a decimal
point, and a result whose 8-decimal rounding is *not* within `1e-10` of
an integer displays as that rounding further rounded to at most 6
decimal places (the collapse test is applied to `round(result, 8)`, not
to the raw result, so values within `5·10⁻⁹` of an integer also
collapse; and the 6-decimal rounding may itself produce an
integer-valued float, displayed like `2.0`).  `"10/4"` displays
`"10/4 = 2.5"` and `"9/3"` displays `"9/3 = 3"`. -/
theorem c4_amended_formatting :
    (∀ q : ℚ, |q - (roundHalfEven q : ℚ)| < 1 / 10000000000 →
        pyDisplay (pyFormat (.pfloat q)) = toString (roundHalfEven q)) ∧
    (∀ q : ℚ, ¬(|roundTo 8 q - (roundHalfEven (roundTo 8 q) : ℚ)| < 1 / 10000000000) →
        pyFormat (.pfloat q) = .pfloat (roundTo 6 (roundTo 8 q))) ∧
    (∀ (s : String) (v : PyNum), simple_eval (safeOf s) = .ok v →
        calculate_one s = .reply (originalOf s ++ " = " ++ pyDisplay (pyFormat v))) ∧
    calculate_one "10/4" = .reply "10/4 = 2.5" ∧
    calculate_one "9/3" = .reply "9/3 = 3" := by
  refine ⟨?_, ?_, ?_, by decide, by decide⟩
  · intro q h
    rw [pyFormat_near h]
    rfl
  · intro q h
    exact pyFormat_far h
  · intro s v h
    simp [calculate_one, h]

/-- C4 amended, witness: the two formatting rules applied at `3` and at
`5/2`. -/
theorem c4_amended_formatting_witness :
    pyDisplay (pyFormat (.pfloat 3)) = toString (roundHalfEven (3 : ℚ)) ∧
      pyFormat (.pfloat (5 / 2 : ℚ)) =
        .pfloat (roundTo 6 (roundTo 8 (5 / 2 : ℚ))) ∧
      calculate_one "7/2" = .reply ("7/2" ++ " = " ++ pyDisplay (pyFormat (.pfloat (7 / 2)))) :=
  ⟨c4_amended_formatting.1 3 (by decide),
    c4_amended_formatting.2.1 (5 / 2) (by decide),
    c4_amended_formatting.2.2.1 "7/2" (.pfloat (7 / 2)) (by decide)⟩

/-- C5: after cleaning and normalization the validator rejects every
string ending in an operator character and every string beginning with
`*` or `/`, while `"-5+3"` (leading unary minus) is accepted. -/
theorem c5_validator_rejects_incomplete :
    (∀ s : String, opEnds (clean_expr_of s.data) = true →
        is_valid_math_expression s = false) ∧
    (∀ s : String, startsMulDiv (clean_expr_of s.data) = true →
        is_valid_math_expression s = false) ∧
    is_valid_math_expression "-5+3" = true ∧
    is_valid_math_expression "5+" = false ∧
    is_valid_math_expression "*5" = false := by
  refine ⟨?_, ?_, by decide, by decide, by decide⟩
  · intro s h
    simp [is_valid_math_expression, h]
  · intro s h
    simp [is_valid_math_expression, h]

/-- C5 witness: the two rejection rules applied at `"1+2+"` and
`"/5+1"`. -/
theorem c5_validator_rejects_incomplete_witness :
    opEnds (clean_expr_of ("1+2+" : String).data) = true ∧
      is_valid_math_expression "1+2+" = false ∧
      startsMulDiv (clean_expr_of ("/5+1" : String).data) = true ∧
      is_valid_math_expression "/5+1" = false :=
  ⟨by decide, c5_validator_rejects_incomplete.1 "1+2+" (by decide),
    by decide, c5_validator_rejects_incomplete.2.1 "/5+1" (by decide)⟩

/-- C6: a string without operator characters yields no candidates, and
every candidate the extractor produces contains at least one operator
character (a bare number is never a candidate). -/
theorem c6_no_operator_no_candidates :
    (∀ s : String, s.data.any isOpChar = false → findall s = []) ∧
    ∀ s : String, (findall s).all (fun m => m.data.any isOpChar) = true := by
  constructor
  · intro s h
    unfold findall
    cases hf : findallChars s.data with
    | nil => rfl
    | cons m t =>
      exfalso
      obtain ⟨⟨c, hc, hcop⟩, -, hsub⟩ :=
        findallChars_spec (l := s.data) (m := m) (by rw [hf]; simp)
      have hany : s.data.any isOpChar = true := List.any_eq_true.mpr ⟨c, hsub c hc, hcop⟩
      rw [h] at hany
      exact Bool.false_ne_true hany
  · intro s
    rw [List.all_eq_true]
    intro m hm
    unfold findall at hm
    obtain ⟨l', hl', rfl⟩ := List.mem_map.mp hm
    obtain ⟨⟨c, hc, hcop⟩, -, -⟩ := findallChars_spec hl'
    exact List.any_eq_true.mpr ⟨c, hc, hcop⟩

/-- C6 witness: a message of words and bare numbers produces no
candidates. -/
theorem c6_no_operator_no_candidates_witness :
    ("hello 123 world" : String).data.any isOpChar = false ∧
      findall "hello 123 world" = [] :=
  ⟨by decide, c6_no_operator_no_candidates.1 "hello 123 world" (by decide)⟩

/-- C7 counterexample: the claim says phone-number- and date-like tokens
yield no candidates, but the extractor matches `"555-1234"` inside
`"call me at 555-1234"` (and the bot replies `"555-1234 = -679"`), and
matches `"2024-10-12"` whole (replying `"2024-10-12 = 2002"`). -/
theorem c7_counterexample_phone_and_date :
    findall "call me at 555-1234" = ["555-1234"] ∧
    calculate_expression "call me at 555-1234" = [.reply "555-1234 = -679"] ∧
    findall "2024-10-12" = ["2024-10-12"] ∧
    calculate_expression "2024-10-12" = [.reply "2024-10-12 = 2002"] := by
  refine ⟨by decide, by decide, by decide, by decide⟩

/-- C7 amended: the `\b` anchoring only prevents extraction from inside
a larger alphanumeric token (no candidate comes out of
`"order AB12-34CD shipped"`); standalone phone-number- or date-like
digit tokens such as `"555-1234"` and `"2024-10-12"` are extracted and
evaluated as subtraction. -/
theorem c7_amended_word_boundary_only :
    findall "order AB12-34CD shipped" = [] ∧
    findall "call me at 555-1234x" = [] ∧
    calculate_one "555-1234" = .reply "555-1234 = -679" ∧
    calculate_one "2024-10-12" = .reply "2024-10-12 = 2002" := by
  refine ⟨by decide, by decide, by decide, by decide⟩

/-- C8: the per-expression loop of `calculate_expression` catches every
exception inside the loop body, so processing an element never prevents
the processing of its later siblings: the outcomes of any list decompose
elementwise, and concretely a division-by-zero element is followed by a
normal reply for the next element. -/
theorem c8_loop_processes_all_siblings :
    (∀ (pre : List String) (e : String) (post : List String),
        calc_loop (pre ++ e :: post) =
          calc_loop pre ++ calculate_one e :: calc_loop post) ∧
    calc_loop ["5/0", "4+4"] =
      [.divisionErrorReply "❌ Error: Division by zero in '5/0'", .reply "4+4 = 8"] := by
  constructor
  · intro pre e post
    induction pre with
    | nil => rfl
    | cons x xs ih => simp [calc_loop, ih]
  · decide

/-- C9 counterexample: formatting is not idempotent.  The reachable
result `2.0000004` (e.g. from `"2.0000004+0"`) formats to the float
`2.0`, displayed `"2.0"`; formatting the numeric value `2.0` of that
already-formatted result yields the integer `2`, displayed `"2"`. -/
theorem c9_counterexample_reformat :
    pyFormat (.pfloat (5000001 / 2500000 : ℚ)) = .pfloat 2 ∧
    pyDisplay (.pfloat 2) = "2.0" ∧
    pyFormat (.pfloat 2) = .pint 2 ∧
    pyDisplay (pyFormat (.pfloat 2)) = "2" ∧
    calculate_one "2.0000004+0" = .reply "2.0000004+0 = 2.0" ∧
    ("2.0" : String) ≠ "2" := by
  refine ⟨by decide, by decide, by decide, by decide, by decide, by decide⟩

/-- C9 amended: formatting is a pure function of the numeric value, and
re-formatting an already-formatted value yields the same result and
display — except when the first pass produced an integer-valued float
(display `"n.0"`), which a second pass collapses to the integer `n`. -/
theorem c9_amended_idempotent_unless_integer_float :
    ∀ v : PyNum, isIntValuedFloat (pyFormat v) = false →
      pyFormat (pyFormat v) = pyFormat v ∧
        pyDisplay (pyFormat (pyFormat v)) = pyDisplay (pyFormat v) := by
  intro v h
  rcases pyFormat_output v with ⟨n, hn⟩ | ⟨q, hq, h6⟩
  · rw [hn]
    exact ⟨rfl, rfl⟩
  · rw [hq] at h ⊢
    have hden : q.den ≠ 1 := by
      simp only [isIntValuedFloat] at h
      intro he
      rw [he] at h
      simp at h
    rw [pyFormat_float_stable h6 hden]
    exact ⟨rfl, rfl⟩

/-- C9 amended, witness: re-formatting the formatted value of `5/2`
changes nothing. -/
theorem c9_amended_idempotent_witness :
    isIntValuedFloat (pyFormat (.pfloat (5 / 2 : ℚ))) = false ∧
      pyFormat (pyFormat (.pfloat (5 / 2 : ℚ))) = pyFormat (.pfloat (5 / 2 : ℚ)) :=
  ⟨by decide,
    (c9_amended_idempotent_unless_integer_float (.pfloat (5 / 2 : ℚ)) (by decide)).1⟩

/-- C10: validation performs the trial evaluation
`simple_eval(clean_expr)` on exactly the string `calculate_expression`
later evaluates, so every validated candidate re-evaluates successfully
— the evaluation-time `ZeroDivisionError` and `InvalidExpression`
branches are unreachable for validated candidates — and `"5/0"` is
dropped silently at validation, producing no outcome at all. -/
theorem c10_validated_implies_eval_succeeds :
    (∀ s : String, is_valid_math_expression s = true →
        (simple_eval (safeOf s)).isOk = true ∧ (calculate_one s).isReply = true) ∧
    is_valid_math_expression "5/0" = false ∧
    calculate_expression "5/0" = [] := by
  refine ⟨?_, by decide, by decide⟩
  intro s h
  simp only [is_valid_math_expression] at h
  rw [trial_eq_safe s] at h
  split at h
  · exact absurd h (by simp)
  split at h
  · exact absurd h (by simp)
  split at h
  · exact absurd h (by simp)
  cases hev : simple_eval (safeOf s) with
  | ok v =>
    constructor
    · rfl
    · simp [calculate_one, hev, Outcome.isReply]
  | err e =>
    rw [hev] at h
    exact absurd h (by simp)

/-- C10 witness: `"2+2"` validates, evaluates successfully and yields a
normal reply. -/
theorem c10_validated_implies_eval_succeeds_witness :
    is_valid_math_expression "2+2" = true ∧
      (simple_eval (safeOf "2+2")).isOk = true ∧
      (calculate_one "2+2").isReply = true :=
  ⟨by decide,
    (c10_validated_implies_eval_succeeds.1 "2+2" (by decide)).1,
    (c10_validated_implies_eval_succeeds.1 "2+2" (by decide)).2⟩

end
